import Mathlib

/-! DS3231 clock access layer of `main.c`

A shallow embedding of the clock code of `src/src/main.c`: the BCD codec,
the register-level read and write (`ds3231_get_time`, `ds3231_set_time`),
the form parser (`url_decode_inplace`, `form_get_u8`) and the HTTP handler
`api_set_time_handler`.

Conventions.
* `uint8_t` values are `Nat`; a result stored into a `uint8_t` is reduced
  `% 256`.
* A C string is the list of its bytes before the terminating NUL.
* `esp_err_t` is `Int`.
* The I2C driver is outside the program: it is a record of two functions
  over an arbitrary bus state `σ`, and the clock operations are parametric
  in it.
-/

set_option autoImplicit false

namespace DS3231

/-! ## Error codes -/

abbrev esp_err_t := Int

def ESP_OK : esp_err_t := 0
def ESP_FAIL : esp_err_t := -1
def ESP_ERR_INVALID_ARG : esp_err_t := 0x102

/-! ## BCD codec (main.c:45-46) -/

/-- The function `bcd_to_dec` of main.c:45, result stored in a `uint8_t`. -/
def bcd_to_dec (val : Nat) : Nat := (((val >>> 4) * 10) + (val &&& 0x0F)) % 256

/-- The function `dec_to_bcd` of main.c:46, result stored in a `uint8_t`. -/
def dec_to_bcd (val : Nat) : Nat := (((val / 10) <<< 4) ||| (val % 10)) % 256

/-! ## Data model (main.c:49-56) -/

/-- The struct `rtc_time_t`; every field is a `uint8_t`. -/
structure rtc_time_t where
  hour : Nat
  min : Nat
  sec : Nat
  day : Nat
  month : Nat
  year : Nat
  deriving DecidableEq, Repr

/-! ## The I2C driver boundary -/

/-- The two driver calls the clock code makes, over a bus state `σ`.
`i2c_master_transmit s payload` returns the status and the new state;
`i2c_master_transmit_receive s wr n` returns the status, the bytes read
and the new state. -/
structure I2C (σ : Type) where
  i2c_master_transmit : σ → List Nat → esp_err_t × σ
  i2c_master_transmit_receive : σ → List Nat → Nat → esp_err_t × List Nat × σ

/-! ## Register read (main.c:95-114) -/

/-- Byte `i` of the receive buffer `data[7] = {0}` after the driver stored
`rx` into it. -/
def data_at (rx : List Nat) (i : Nat) : Nat := (rx.take 7).getD i 0

/-- Lines 105-111 of `ds3231_get_time`: the decoding of the seven bytes. -/
def decode_regs (data : List Nat) : rtc_time_t :=
  { sec := bcd_to_dec (data_at data 0 &&& 0x7F)
    min := bcd_to_dec (data_at data 1 &&& 0x7F)
    hour := bcd_to_dec (data_at data 2 &&& 0x3F)
    day := bcd_to_dec (data_at data 4 &&& 0x3F)
    month := bcd_to_dec (data_at data 5 &&& 0x1F)
    year := bcd_to_dec (data_at data 6) }

/-- The function `ds3231_get_time`. The argument `out` is `none` for a null
pointer and otherwise the struct the pointer refers to; the result is the
status, the struct after the call and the bus state. -/
def ds3231_get_time {σ : Type} (bus : I2C σ) (s : σ) (out : Option rtc_time_t) :
    esp_err_t × Option rtc_time_t × σ :=
  match out with
  | none => (ESP_ERR_INVALID_ARG, none, s)
  | some old =>
    match bus.i2c_master_transmit_receive s [0x00] 7 with
    | (err, data, s1) =>
      if err ≠ ESP_OK then (err, some old, s1)
      else (ESP_OK, some (decode_regs data), s1)

/-! ## Register write (main.c:116-137) -/

/-- The condition of lines 120-121 of `ds3231_set_time`. -/
def time_rejected (t : rtc_time_t) : Bool :=
  decide (t.hour > 23) || decide (t.min > 59) || decide (t.sec > 59) ||
  decide (t.day = 0) || decide (t.day > 31) || decide (t.month = 0) ||
  decide (t.month > 12) || decide (t.year > 99)

/-- Lines 126-134 of `ds3231_set_time`: the eight bytes of `payload`. -/
def set_time_payload (t : rtc_time_t) : List Nat :=
  [ 0x00,
    dec_to_bcd t.sec,
    dec_to_bcd t.min,
    dec_to_bcd t.hour &&& 0x3F,
    1,
    dec_to_bcd t.day,
    dec_to_bcd t.month,
    dec_to_bcd t.year ]

/-- The function `ds3231_set_time`; `t` is `none` for a null pointer. -/
def ds3231_set_time {σ : Type} (bus : I2C σ) (s : σ) (t : Option rtc_time_t) :
    esp_err_t × σ :=
  match t with
  | none => (ESP_ERR_INVALID_ARG, s)
  | some t =>
    if time_rejected t then (ESP_ERR_INVALID_ARG, s)
    else bus.i2c_master_transmit s (set_time_payload t)

/-! ## C library functions used by the parser

The functions `isdigit`, `isspace`, `isxdigit`, `strtol`, `strstr` and
`atoi` belong to the C library, not to this program; they are modelled
from ISO C in the "C" locale. -/

def isdigit (c : Nat) : Bool := decide (48 ≤ c) && decide (c ≤ 57)

def isspace (c : Nat) : Bool := decide (c = 32) || (decide (9 ≤ c) && decide (c ≤ 13))

def isxdigit (c : Nat) : Bool :=
  isdigit c || (decide (65 ≤ c) && decide (c ≤ 70)) || (decide (97 ≤ c) && decide (c ≤ 102))

/-- Value of one hexadecimal digit, as `strtol(_, NULL, 16)` reads it. -/
def hexval (c : Nat) : Nat :=
  if isdigit c then c - 48
  else if decide (65 ≤ c) && decide (c ≤ 70) then c - 55
  else c - 87

/-- The digit loop of `atoi`: accumulates leading decimal digits. -/
def atoi_digits : List Nat → Nat → Nat
  | [], acc => acc
  | c :: cs, acc => if isdigit c then atoi_digits cs (acc * 10 + (c - 48)) else acc

/-- The C function `atoi` on a string of at most five characters (no `int`
overflow is possible): leading white space, an optional sign, then
decimal digits. -/
def atoi (s : List Nat) : Int :=
  match s.dropWhile isspace with
  | 45 :: r => -((atoi_digits r 0 : Nat) : Int)
  | 43 :: r => ((atoi_digits r 0 : Nat) : Int)
  | r => ((atoi_digits r 0 : Nat) : Int)

/-- The C function `strstr`: offset of the first occurrence of `needle` in
`hay`, `none` for a null result. -/
def strstr : List Nat → List Nat → Option Nat
  | [], needle => if needle.isPrefixOf [] then some 0 else none
  | h :: t, needle =>
    if needle.isPrefixOf (h :: t) then some 0
    else (strstr t needle).map (· + 1)

/-- The C string held in a buffer: the bytes before the first NUL. -/
def c_str (buf : List Nat) : List Nat := buf.takeWhile (· ≠ 0)

/-- ASCII bytes of a string literal. -/
def ascii (s : String) : List Nat := s.toList.map Char.toNat

/-! ## Form parsing (main.c:182-226) -/

/-- The function `url_decode_inplace`, as a function from the string read
through `src` to the bytes written through `dst` (the terminating NUL
excluded). `dst` never passes `src`, so no byte is read after it was
overwritten. -/
def url_decode_inplace : List Nat → List Nat
  | [] => []
  | c :: r =>
    if c = 43 then 32 :: url_decode_inplace r
    else
      let copied := url_decode_inplace r
      if c = 37 then
        match r with
        | a :: b :: r2 =>
          if isxdigit a && isxdigit b then
            ((16 * hexval a + hexval b) % 256) :: url_decode_inplace r2
          else 37 :: copied
        | _ => 37 :: copied
      else c :: copied

/-- Lines 211-215 of `form_get_u8`: the characters copied into `num[6]`,
at most `cap` of them, up to a NUL or `&`. -/
def copy_num : List Nat → Nat → List Nat
  | [], _ => []
  | _, 0 => []
  | c :: cs, cap + 1 => if c ≠ 0 ∧ c ≠ 38 then c :: copy_num cs cap else []

/-- Lines 217-220 of `form_get_u8`: `atoi`, then the clamp to `0..255`. -/
def clamp_u8 (v : Int) : Nat :=
  if v < 0 then 0 else if v > 255 then 255 else v.toNat

/-- The `while` loop of `form_get_u8` with the search pointer at offset
`p` of `body`. The outer `Option` is `none` when `fuel` iterations did not
finish the loop; the inner one is `some v` for `true` with `*out = v` and
`none` for `false`. -/
def form_get_u8_loop (body key : List Nat) : Nat → Nat → Option (Option Nat)
  | 0, _ => none
  | fuel + 1, p =>
    match strstr (body.drop p) key with
    | none => some none
    | some off =>
      let q := p + off
      if (q = 0 ∨ body[q - 1]? = some 38) ∧ body[q + key.length]? = some 61 then
        some (some (clamp_u8 (atoi (copy_num (body.drop (q + key.length + 1)) 5))))
      else form_get_u8_loop body key fuel (q + key.length)

/-- The function `form_get_u8` for non-null arguments, run for at most
`fuel` iterations of its loop. -/
def form_get_u8 (fuel : Nat) (body key : List Nat) : Option (Option Nat) :=
  form_get_u8_loop body key fuel 0

/-! ## The handler of `POST /api/set_time` (main.c:336-388) -/

/-- The request as the handler sees it: the declared body length and the
chunks that successive `httpd_req_recv` calls deliver (an empty chunk, or
no chunk left, is a return value `<= 0`). -/
structure httpd_req_t where
  content_len : Int
  chunks : List (List Nat)

/-- What the handler sends back. -/
inductive http_resp where
  | sendstr (msg : String)
  | send_err (status : Nat) (msg : String)
  | send_500
  deriving DecidableEq, Repr

/-- The receive loop of lines 349-358: `some` of the bytes stored in
`body[0..total)`, or `none` when a receive returned `<= 0`. Each call may
deliver at most the `total - received` bytes asked for. -/
def recv_body (total : Nat) : List (List Nat) → List Nat → Option (List Nat)
  | [], acc => if acc.length < total then none else some acc
  | c :: cs, acc =>
    if acc.length < total then
      let d := c.take (total - acc.length)
      if d.length = 0 then none else recv_body total cs (acc ++ d)
    else some acc

/-- Field value after `ok &= form_get_u8(body, key, &x)` with `x` initially
0: the flag and the byte. -/
def field_of (r : Option Nat) : Bool × Nat :=
  match r with
  | some v => (true, v)
  | none => (false, 0)

/-- Lines 373-387 of `api_set_time_handler`: the range check on the six
parsed fields (each the flag `form_get_u8` returned and the byte it left
in the variable), the call of `ds3231_set_time` and the response. -/
def set_time_response {σ : Type} (bus : I2C σ) (s : σ)
    (hour min sec day month year : Bool × Nat) : esp_err_t × http_resp × σ :=
  let ok := hour.1 && min.1 && sec.1 && day.1 && month.1 && year.1
  if !ok || decide (hour.2 > 23) || decide (min.2 > 59) || decide (sec.2 > 59) ||
      decide (day.2 < 1) || decide (day.2 > 31) || decide (month.2 < 1) ||
      decide (month.2 > 12) || decide (year.2 > 99) then
    (ESP_FAIL, http_resp.send_err 400 "Invalid time fields", s)
  else
    let t : rtc_time_t :=
      { hour := hour.2, min := min.2, sec := sec.2, day := day.2, month := month.2,
        year := year.2 }
    match ds3231_set_time bus s (some t) with
    | (err, s1) =>
      if err ≠ ESP_OK then (ESP_FAIL, http_resp.send_err 500 "I2C write failed", s1)
      else (ESP_OK, http_resp.sendstr "Time set successfully!", s1)

/-- The text the parser works on: the received buffer, NUL-terminated at
`body[received]`, after `url_decode_inplace`. -/
def decoded_body (buf : List Nat) : List Nat := c_str (url_decode_inplace (c_str buf))

/-- Lines 359-387 of `api_set_time_handler`, from the received buffer on.
The result is `none` when a `form_get_u8` call did not return within
`body.length + 1` iterations (which does not happen, see
`handle_body_returns`). -/
def handle_body {σ : Type} (bus : I2C σ) (s : σ) (buf : List Nat) :
    Option (esp_err_t × http_resp × σ) :=
  let body := decoded_body buf
  let fuel := body.length + 1
  match form_get_u8 fuel body (ascii "hour"), form_get_u8 fuel body (ascii "min"),
        form_get_u8 fuel body (ascii "sec"), form_get_u8 fuel body (ascii "day"),
        form_get_u8 fuel body (ascii "month"), form_get_u8 fuel body (ascii "year") with
  | some rh, some rmi, some rs, some rd, some rmo, some ry =>
    some (set_time_response bus s (field_of rh) (field_of rmi) (field_of rs) (field_of rd)
      (field_of rmo) (field_of ry))
  | _, _, _, _, _, _ => none

/-- The function `api_set_time_handler`; `malloc_ok` says whether the
allocation of the body buffer succeeds. -/
def api_set_time_handler {σ : Type} (bus : I2C σ) (s : σ) (malloc_ok : Bool)
    (req : httpd_req_t) : Option (esp_err_t × http_resp × σ) :=
  let total := req.content_len
  if total ≤ 0 ∨ total > 1024 then
    some (ESP_FAIL, http_resp.send_err 400 "Invalid body size", s)
  else if !malloc_ok then some (ESP_FAIL, http_resp.send_500, s)
  else
    match recv_body total.toNat req.chunks [] with
    | none => some (ESP_FAIL, http_resp.send_500, s)
    | some buf => handle_body bus s buf

/-- A request whose whole body arrives in one chunk. -/
def post (body : String) : httpd_req_t :=
  { content_len := (ascii body).length, chunks := [ascii body] }

/-! ## Test doubles for the driver -/

/-- One call observed at the driver boundary. The last two constructors are
modelled from the spec: they stand for taking and releasing the single
mutual-exclusion lock that section 4.4 of the spec describes; nothing in
main.c produces them. -/
inductive BusEvent where
  | transmit (payload : List Nat)
  | transmit_receive (wr : List Nat) (n : Nat)
  | lock_take
  | lock_give
  deriving DecidableEq, Repr

/-- A driver that appends every call to a log (oldest first) and passes
it on to `bus`. -/
def recording {σ : Type} (bus : I2C σ) : I2C (σ × List BusEvent) where
  i2c_master_transmit := fun st payload =>
    match bus.i2c_master_transmit st.1 payload with
    | (err, s1) => (err, (s1, st.2 ++ [BusEvent.transmit payload]))
  i2c_master_transmit_receive := fun st wr n =>
    match bus.i2c_master_transmit_receive st.1 wr n with
    | (err, data, s1) => (err, data, (s1, st.2 ++ [BusEvent.transmit_receive wr n]))

/-- Registers after a write of `bytes` starting at register `addr`. -/
def write_regs : List Nat → Nat → List Nat → List Nat
  | regs, _, [] => regs
  | regs, addr, b :: bs => write_regs (regs.set addr b) (addr + 1) bs

/-- A bus with one always-acknowledging clock chip whose state is its
register file: a transmit stores the bytes after the address byte into
consecutive registers, a transmit-receive reads `n` registers from the
address written. -/
def chipBus : I2C (List Nat) where
  i2c_master_transmit := fun regs payload =>
    (ESP_OK, write_regs regs (payload.headD 0) payload.tail)
  i2c_master_transmit_receive := fun regs wr n =>
    (ESP_OK, (regs.drop (wr.headD 0)).take n, regs)

/-- A bus whose chip never acknowledges: every call fails with `ESP_FAIL`. -/
def deadBus : I2C (List Nat) where
  i2c_master_transmit := fun regs _ => (ESP_FAIL, regs)
  i2c_master_transmit_receive := fun regs _ _ => (ESP_FAIL, [], regs)

/-! ## Definitions that follow the specification's words -/

/-- Spec 4.1, `decode_bcd`: high nibble times 10 plus low nibble. -/
def decode_bcd (b : Nat) : Nat := (b / 16) * 10 + b % 16

/-- Spec 4.1, `encode_bcd`: `(value/10)<<4 | value%10`. -/
def encode_bcd (v : Nat) : Nat := ((v / 10) <<< 4) ||| (v % 10)

/-- Spec 3, `RtcTime`: every field inside its range. -/
def in_range (t : rtc_time_t) : Prop :=
  t.hour ≤ 23 ∧ t.min ≤ 59 ∧ t.sec ≤ 59 ∧ 1 ≤ t.day ∧ t.day ≤ 31 ∧
  1 ≤ t.month ∧ t.month ≤ 12 ∧ t.year ≤ 99

instance (t : rtc_time_t) : Decidable (in_range t) := by
  unfold in_range; infer_instance

/-- The key occurs in the body as a field name at offset `i`: it starts
the body or follows `&`, and `=` follows it. -/
def is_field_at (body key : List Nat) (i : Nat) : Prop :=
  key.isPrefixOf (body.drop i) = true ∧ (i = 0 ∨ body[i - 1]? = some 38) ∧
    body[i + key.length]? = some 61

instance (body key : List Nat) (i : Nat) : Decidable (is_field_at body key i) := by
  unfold is_field_at; infer_instance

/-- The value of the field whose name starts at offset `i`: the characters
behind its `=` up to the next `&` or the end of the body. -/
def field_value (body key : List Nat) (i : Nat) : List Nat :=
  (body.drop (i + key.length + 1)).takeWhile (· ≠ 38)

/-- The number that a string of decimal ASCII digits denotes. -/
def decimal (digits : List Nat) : Nat := digits.foldl (fun n c => n * 10 + (c - 48)) 0

/-- The six keys of `POST /api/set_time`. -/
def time_keys : List (List Nat) :=
  [ascii "hour", ascii "min", ascii "sec", ascii "day", ascii "month", ascii "year"]

/-- Spec 4.4 read as a property of the events of one call, starting with
the lock free (`held = false`): the lock is taken only when free, given
only when held, every bus transaction happens while it is held, and it
is free again at the end. -/
def under_lock : Bool → List BusEvent → Bool
  | held, [] => !held
  | held, BusEvent.lock_take :: r => !held && under_lock true r
  | held, BusEvent.lock_give :: r => held && under_lock false r
  | held, BusEvent.transmit _ :: r => held && under_lock held r
  | held, BusEvent.transmit_receive _ _ :: r => held && under_lock held r

/-! ## BCD codec -/

set_option maxRecDepth 100000 in
theorem bcd_to_dec_eq_decode_bcd : ∀ b, b < 256 → bcd_to_dec b = decode_bcd b := by
  decide

theorem dec_to_bcd_eq_encode_bcd : ∀ v, v < 100 → dec_to_bcd v = encode_bcd v := by
  decide

/-- C1: for every v with 0 <= v <= 99, decoding the BCD encoding of v in
8-bit arithmetic gives v back. -/
theorem bcd_roundtrip (v : Nat) (h : v ≤ 99) : bcd_to_dec (dec_to_bcd v) = v := by
  have key : ∀ w, w < 100 → bcd_to_dec (dec_to_bcd w) = w := by decide
  exact key v (by omega)

theorem bcd_roundtrip_witness : (42 : Nat) ≤ 99 ∧ bcd_to_dec (dec_to_bcd 42) = 42 :=
  ⟨by decide, bcd_roundtrip 42 (by decide)⟩

/-! ## Validation -/

theorem time_rejected_iff (t : rtc_time_t) :
    time_rejected t = true ↔
      (t.hour > 23 ∨ t.min > 59 ∨ t.sec > 59 ∨ t.day = 0 ∨ t.day > 31 ∨
        t.month = 0 ∨ t.month > 12 ∨ t.year > 99) := by
  simp [time_rejected, or_assoc]

theorem time_rejected_false_iff (t : rtc_time_t) :
    time_rejected t = false ↔ in_range t := by
  rw [← Bool.not_eq_true, time_rejected_iff]
  unfold in_range
  omega

/-- C2: `ds3231_set_time` returns `ESP_ERR_INVALID_ARG` with the bus
untouched, whatever the driver, exactly when hour>23 or min>59 or sec>59
or day==0 or day>31 or month==0 or month>12 or year>99; a candidate with
every field in range is accepted (the frame goes to the driver), and a
candidate in range with one field replaced by hour=24, min=60, sec=60,
day=32, month=13, year=100, day=0 or month=0 is rejected. -/
theorem set_time_validation (t : rtc_time_t) :
    ((∀ (σ : Type) (bus : I2C σ) (s : σ),
        ds3231_set_time bus s (some t) = (ESP_ERR_INVALID_ARG, s)) ↔
      (t.hour > 23 ∨ t.min > 59 ∨ t.sec > 59 ∨ t.day = 0 ∨ t.day > 31 ∨
        t.month = 0 ∨ t.month > 12 ∨ t.year > 99)) ∧
    (in_range t →
      (∀ (σ : Type) (bus : I2C σ) (s : σ),
        ds3231_set_time bus s (some t) = bus.i2c_master_transmit s (set_time_payload t)) ∧
      time_rejected { t with hour := 24 } = true ∧
      time_rejected { t with min := 60 } = true ∧
      time_rejected { t with sec := 60 } = true ∧
      time_rejected { t with day := 32 } = true ∧
      time_rejected { t with month := 13 } = true ∧
      time_rejected { t with year := 100 } = true ∧
      time_rejected { t with day := 0 } = true ∧
      time_rejected { t with month := 0 } = true) := by
  refine ⟨⟨fun h => ?_, fun h σ bus s => ?_⟩, fun hr => ⟨fun σ bus s => ?_, ?_⟩⟩
  · by_contra hc
    have hf : time_rejected t = false := by
      rw [← Bool.not_eq_true, time_rejected_iff]; exact hc
    have h1 := h (List Nat) chipBus []
    simp [ds3231_set_time, hf, chipBus, ESP_OK, ESP_ERR_INVALID_ARG] at h1
  · have ht : time_rejected t = true := (time_rejected_iff t).2 h
    simp [ds3231_set_time, ht]
  · have hf : time_rejected t = false := (time_rejected_false_iff t).2 hr
    simp [ds3231_set_time, hf]
  · simp [time_rejected]

theorem set_time_validation_witness :
    in_range ⟨23, 59, 58, 31, 12, 25⟩ ∧
    ds3231_set_time (recording chipBus) ([0, 0, 0, 0, 0, 0, 0], []) (some ⟨23, 59, 58, 31, 12, 25⟩) =
      (ESP_OK, ([0x58, 0x59, 0x23, 1, 0x31, 0x12, 0x25],
        [BusEvent.transmit [0x00, 0x58, 0x59, 0x23, 1, 0x31, 0x12, 0x25]])) ∧
    time_rejected ⟨24, 59, 58, 31, 12, 25⟩ = true :=
  ⟨by decide,
   by rw [((set_time_validation ⟨23, 59, 58, 31, 12, 25⟩).2 (by decide)).1]; decide,
   ((set_time_validation ⟨23, 59, 58, 31, 12, 25⟩).2 (by decide)).2.1⟩

/-- C3: for every candidate that the validation check rejects,
`ds3231_set_time` returns `ESP_ERR_INVALID_ARG` and the bus state is the
one before the call, for every driver: no transmit is made. -/
theorem set_time_rejected_no_transmit {σ : Type} (bus : I2C σ) (s : σ) (t : rtc_time_t)
    (h : time_rejected t = true) :
    ds3231_set_time bus s (some t) = (ESP_ERR_INVALID_ARG, s) := by
  simp [ds3231_set_time, h]

theorem set_time_rejected_no_transmit_witness :
    time_rejected ⟨24, 0, 0, 1, 1, 0⟩ = true ∧
    ds3231_set_time (recording chipBus) ([0x58, 0x59, 0x23, 1, 0x31, 0x12, 0x25], [])
        (some ⟨24, 0, 0, 1, 1, 0⟩) =
      (ESP_ERR_INVALID_ARG, ([0x58, 0x59, 0x23, 1, 0x31, 0x12, 0x25], [])) :=
  ⟨by decide, set_time_rejected_no_transmit _ _ _ (by decide)⟩

/-! ## Register frames -/

theorem in_range_bounds {t : rtc_time_t} (h : time_rejected t = false) :
    t.hour < 24 ∧ t.min < 60 ∧ t.sec < 60 ∧ t.day < 32 ∧ t.month < 13 ∧ t.year < 100 := by
  have h1 := (time_rejected_false_iff t).1 h
  unfold in_range at h1
  omega

theorem roundtrip_mask7F : ∀ v, v < 60 → bcd_to_dec (dec_to_bcd v &&& 0x7F) = v := by
  decide

theorem roundtrip_hour : ∀ v, v < 24 → bcd_to_dec ((dec_to_bcd v &&& 0x3F) &&& 0x3F) = v := by
  decide

theorem roundtrip_day : ∀ v, v < 32 → bcd_to_dec (dec_to_bcd v &&& 0x3F) = v := by
  decide

theorem roundtrip_month : ∀ v, v < 13 → bcd_to_dec (dec_to_bcd v &&& 0x1F) = v := by
  decide

theorem roundtrip_year : ∀ v, v < 100 → bcd_to_dec (dec_to_bcd v) = v := by
  decide

theorem decode_regs_payload {t : rtc_time_t} (h : time_rejected t = false) :
    decode_regs (set_time_payload t).tail = t := by
  obtain ⟨hh, hm, hs, hd, hmo, hy⟩ := in_range_bounds h
  cases t with
  | mk hour min sec day month year =>
    simp only [set_time_payload, List.tail_cons, decode_regs, data_at, List.take,
      List.getD_cons_zero, List.getD_cons_succ] at *
    rw [roundtrip_mask7F sec hs, roundtrip_mask7F min hm, roundtrip_hour hour hh,
      roundtrip_day day hd, roundtrip_month month hmo, roundtrip_year year hy]

/-- C4: for every time t that passes validation, when the bus read of
`ds3231_get_time` succeeds and hands over the seven data bytes
payload[1..7] that `ds3231_set_time` builds for t, `ds3231_get_time`
returns `ESP_OK` and stores exactly t (hour, min, sec, day, month, year);
the weekday placeholder payload[4] is not part of the result. -/
theorem get_time_after_set_time {σ : Type} (bus : I2C σ) (s s1 : σ) (old t : rtc_time_t)
    (hvalid : time_rejected t = false)
    (hread : bus.i2c_master_transmit_receive s [0x00] 7 =
      (ESP_OK, (set_time_payload t).tail, s1)) :
    ds3231_get_time bus s (some old) = (ESP_OK, some t, s1) := by
  simp only [ds3231_get_time, hread, decode_regs_payload hvalid]
  simp

theorem get_time_after_set_time_witness :
    time_rejected ⟨23, 59, 58, 31, 12, 25⟩ = false ∧
    (ds3231_set_time chipBus [0, 0, 0, 0, 0, 0, 0] (some ⟨23, 59, 58, 31, 12, 25⟩)).2 =
      [0x58, 0x59, 0x23, 1, 0x31, 0x12, 0x25] ∧
    ds3231_get_time chipBus [0x58, 0x59, 0x23, 1, 0x31, 0x12, 0x25] (some ⟨0, 0, 0, 0, 0, 0⟩) =
      (ESP_OK, some ⟨23, 59, 58, 31, 12, 25⟩, [0x58, 0x59, 0x23, 1, 0x31, 0x12, 0x25]) :=
  ⟨by decide, by decide,
   get_time_after_set_time chipBus _ _ _ ⟨23, 59, 58, 31, 12, 25⟩ (by decide) (by decide)⟩

set_option maxRecDepth 100000 in
theorem decode_mask7F : ∀ b, b < 256 → bcd_to_dec (b &&& 0x7F) = decode_bcd (b % 128) := by
  decide

set_option maxRecDepth 100000 in
theorem decode_mask3F : ∀ b, b < 256 → bcd_to_dec (b &&& 0x3F) = decode_bcd (b % 64) := by
  decide

set_option maxRecDepth 100000 in
theorem decode_mask1F : ∀ b, b < 256 → bcd_to_dec (b &&& 0x1F) = decode_bcd (b % 32) := by
  decide

/-- C8 as stated fails: with register bytes 80 00 00 00 01 01 00 the read
succeeds and `ds3231_get_time` stores sec = 0, while decode_bcd of the
unmasked seconds byte 0x80 is 80; the seconds byte is masked too. -/
theorem get_time_unmasked_seconds_counterexample :
    ds3231_get_time chipBus [0x80, 0x00, 0x00, 0x00, 0x01, 0x01, 0x00] (some ⟨0, 0, 0, 0, 0, 0⟩) =
      (ESP_OK, some { hour := 0, min := 0, sec := 0, day := 1, month := 1, year := 0 },
        [0x80, 0x00, 0x00, 0x00, 0x01, 0x01, 0x00]) ∧
    decode_bcd 0x80 = 80 ∧
    ¬ (∀ (regs : List Nat) (old new : rtc_time_t),
        ds3231_get_time chipBus regs (some old) = (ESP_OK, some new, regs) →
          new.sec = decode_bcd (regs.getD 0 0)) := by
  refine ⟨by decide, by decide, fun h => ?_⟩
  have h1 := h [0x80, 0x00, 0x00, 0x00, 0x01, 0x01, 0x00] ⟨0, 0, 0, 0, 0, 0⟩
    { hour := 0, min := 0, sec := 0, day := 1, month := 1, year := 0 } (by decide)
  revert h1
  decide

/-- C8 amended: for every 7-byte frame d0..d6 returned by a successful bus
read, `ds3231_get_time` stores sec = decode_bcd(d0 low 7 bits),
min = decode_bcd(d1 low 7 bits), hour = decode_bcd(d2 low 6 bits),
day = decode_bcd(d4 low 6 bits), month = decode_bcd(d5 low 5 bits) and
year = decode_bcd(d6), with decode_bcd(b) = high nibble * 10 + low nibble;
the year byte is the only one decoded unmasked, and the weekday byte d3
does not occur in the result. -/
theorem get_time_decodes {σ : Type} (bus : I2C σ) (s s1 : σ) (old : rtc_time_t)
    (d0 d1 d2 d3 d4 d5 d6 : Nat)
    (h0 : d0 < 256) (h1 : d1 < 256) (h2 : d2 < 256) (h4 : d4 < 256) (h5 : d5 < 256)
    (h6 : d6 < 256)
    (hread : bus.i2c_master_transmit_receive s [0x00] 7 =
      (ESP_OK, [d0, d1, d2, d3, d4, d5, d6], s1)) :
    ds3231_get_time bus s (some old) =
      (ESP_OK,
        some { sec := decode_bcd (d0 % 128)
               min := decode_bcd (d1 % 128)
               hour := decode_bcd (d2 % 64)
               day := decode_bcd (d4 % 64)
               month := decode_bcd (d5 % 32)
               year := decode_bcd d6 },
        s1) := by
  simp only [ds3231_get_time, hread, decode_regs, data_at, List.take,
    List.getD_cons_zero, List.getD_cons_succ]
  rw [decode_mask7F d0 h0, decode_mask7F d1 h1, decode_mask3F d2 h2, decode_mask3F d4 h4,
    decode_mask1F d5 h5, bcd_to_dec_eq_decode_bcd d6 h6]
  simp

theorem get_time_decodes_witness :
    ds3231_get_time chipBus [0xD9, 0x80, 0xE3, 0x07, 0xF1, 0x92, 0x99] (some ⟨0, 0, 0, 0, 0, 0⟩) =
      (ESP_OK, some { sec := 59, min := 0, hour := 23, day := 31, month := 12, year := 99 },
        [0xD9, 0x80, 0xE3, 0x07, 0xF1, 0x92, 0x99]) :=
  get_time_decodes chipBus _ _ _ 0xD9 0x80 0xE3 0x07 0xF1 0x92 0x99
    (by decide) (by decide) (by decide) (by decide) (by decide) (by decide) (by decide)

theorem encode_props :
    ∀ v, v < 100 → dec_to_bcd v = encode_bcd v ∧ encode_bcd v / 16 ≤ 9 ∧ encode_bcd v % 16 ≤ 9 := by
  decide

theorem encode_hour_props :
    ∀ v, v < 24 → (encode_bcd v &&& 0x3F) / 16 ≤ 9 ∧ (encode_bcd v &&& 0x3F) % 16 ≤ 9 ∧
      (encode_bcd v &&& 0x3F).testBit 6 = false := by
  decide

/-- C9: for every time t that passes validation, `ds3231_set_time` hands the
driver exactly the 8-byte frame [0x00, enc(sec), enc(min), enc(hour) & 0x3F,
1, enc(day), enc(month), enc(year)] with enc(v) = ((v/10) << 4) | (v % 10),
in one transmit whose result it returns; bit 6 of the hour byte is 0 and
each of the six encoded bytes has both nibbles <= 9. -/
theorem set_time_frame {σ : Type} (bus : I2C σ) (s : σ) (t : rtc_time_t)
    (hvalid : time_rejected t = false) :
    ds3231_set_time bus s (some t) =
      bus.i2c_master_transmit s
        [0x00, encode_bcd t.sec, encode_bcd t.min, encode_bcd t.hour &&& 0x3F, 1,
          encode_bcd t.day, encode_bcd t.month, encode_bcd t.year] ∧
    (encode_bcd t.hour &&& 0x3F).testBit 6 = false ∧
    (∀ b ∈ [encode_bcd t.sec, encode_bcd t.min, encode_bcd t.hour &&& 0x3F,
        encode_bcd t.day, encode_bcd t.month, encode_bcd t.year],
      b / 16 ≤ 9 ∧ b % 16 ≤ 9) := by
  obtain ⟨hh, hm, hs, hd, hmo, hy⟩ := in_range_bounds hvalid
  have es := encode_props t.sec (by omega)
  have em := encode_props t.min (by omega)
  have eh := encode_props t.hour (by omega)
  have ed := encode_props t.day (by omega)
  have emo := encode_props t.month (by omega)
  have ey := encode_props t.year hy
  have ehh := encode_hour_props t.hour hh
  refine ⟨?_, ehh.2.2, ?_⟩
  · simp [ds3231_set_time, hvalid, set_time_payload, es.1, em.1, eh.1, ed.1, emo.1, ey.1]
  · intro b hb
    simp only [List.mem_cons, List.mem_singleton, List.not_mem_nil, or_false] at hb
    rcases hb with rfl | rfl | rfl | rfl | rfl | rfl
    · exact es.2
    · exact em.2
    · exact ⟨ehh.1, ehh.2.1⟩
    · exact ed.2
    · exact emo.2
    · exact ey.2

theorem set_time_frame_witness :
    time_rejected ⟨23, 59, 58, 31, 12, 25⟩ = false ∧
    ds3231_set_time (recording deadBus) ([0, 0, 0, 0, 0, 0, 0], []) (some ⟨23, 59, 58, 31, 12, 25⟩) =
      (ESP_FAIL, ([0, 0, 0, 0, 0, 0, 0],
        [BusEvent.transmit [0x00, 0x58, 0x59, 0x23, 1, 0x31, 0x12, 0x25]])) :=
  ⟨by decide,
   by rw [(set_time_frame (recording deadBus) _ ⟨23, 59, 58, 31, 12, 25⟩ (by decide)).1]; decide⟩

/-! ## Locking -/

/-- C7 as stated fails: a successful read and a successful write each
consist of the bare driver call, issued with no lock taken before it and
none released after it, so the events of the call do not satisfy the
locking discipline of spec 4.4. -/
theorem no_lock_counterexample :
    (ds3231_get_time (recording chipBus) ([0x58, 0x59, 0x23, 1, 0x31, 0x12, 0x25], [])
        (some ⟨0, 0, 0, 0, 0, 0⟩)).2.2.2 = [BusEvent.transmit_receive [0x00] 7] ∧
    under_lock false [BusEvent.transmit_receive [0x00] 7] = false ∧
    (ds3231_set_time (recording chipBus) ([0, 0, 0, 0, 0, 0, 0], [])
        (some ⟨23, 59, 58, 31, 12, 25⟩)).2.2 =
      [BusEvent.transmit [0x00, 0x58, 0x59, 0x23, 1, 0x31, 0x12, 0x25]] ∧
    under_lock false [BusEvent.transmit [0x00, 0x58, 0x59, 0x23, 1, 0x31, 0x12, 0x25]] = false := by
  decide

/-- C7 amended: neither operation takes or releases a lock. Through every
driver and on every exit path, the events of one `ds3231_get_time` call are
exactly one transmit-receive of the address byte 0x00 for 7 bytes (none
for a null pointer), and the events of one `ds3231_set_time` call are
exactly one transmit of the 8-byte frame when the time passes validation
and none when it is rejected or the pointer is null. -/
theorem one_transaction_no_lock {σ : Type} (bus : I2C σ) (s : σ) (log : List BusEvent)
    (old t : rtc_time_t) :
    (ds3231_get_time (recording bus) (s, log) (some old)).2.2.2 =
      log ++ [BusEvent.transmit_receive [0x00] 7] ∧
    (ds3231_get_time (recording bus) (s, log) none).2.2.2 = log ∧
    (ds3231_set_time (recording bus) (s, log) (some t)).2.2 =
      log ++ (if time_rejected t then [] else [BusEvent.transmit (set_time_payload t)]) ∧
    (ds3231_set_time (recording bus) (s, log) none).2.2 = log := by
  refine ⟨?_, rfl, ?_, rfl⟩
  · simp only [ds3231_get_time, recording]
    split <;> rfl
  · simp only [ds3231_set_time, recording]
    cases time_rejected t <;> simp

/-! ## The search loop of `form_get_u8` -/

theorem strstr_none {hay needle : List Nat} (h : strstr hay needle = none) :
    ∀ j, needle.isPrefixOf (hay.drop j) = false := by
  induction hay with
  | nil =>
    intro j
    simp only [strstr] at h
    simp only [List.drop_nil]
    cases hp : needle.isPrefixOf [] with
    | false => rfl
    | true => simp [hp] at h
  | cons x t ih =>
    intro j
    simp only [strstr] at h
    cases hp : needle.isPrefixOf (x :: t) with
    | true => simp [hp] at h
    | false =>
      simp only [hp, Bool.false_eq_true, if_false, Option.map_eq_none'] at h
      cases j with
      | zero => simpa using hp
      | succ k => simpa using ih h k

theorem strstr_some {hay needle : List Nat} {off : Nat} (h : strstr hay needle = some off) :
    needle.isPrefixOf (hay.drop off) = true ∧
      ∀ j, j < off → needle.isPrefixOf (hay.drop j) = false := by
  induction hay generalizing off with
  | nil =>
    simp only [strstr] at h
    cases hp : needle.isPrefixOf [] with
    | false => simp [hp] at h
    | true =>
      simp only [hp, if_true, Option.some.injEq] at h
      subst h
      exact ⟨by simpa using hp, fun j hj => absurd hj (Nat.not_lt_zero j)⟩
  | cons x t ih =>
    simp only [strstr] at h
    cases hp : needle.isPrefixOf (x :: t) with
    | true =>
      simp only [hp, if_true, Option.some.injEq] at h
      subst h
      exact ⟨by simpa using hp, fun j hj => absurd hj (Nat.not_lt_zero j)⟩
    | false =>
      simp only [hp, Bool.false_eq_true, if_false, Option.map_eq_some'] at h
      obtain ⟨o, ho, rfl⟩ := h
      obtain ⟨h1, h2⟩ := ih ho
      refine ⟨by simpa using h1, fun j hj => ?_⟩
      cases j with
      | zero => simpa using hp
      | succ k => simpa using h2 k (by omega)

theorem isPrefixOf_length {k l : List Nat} (h : k.isPrefixOf l = true) : k.length ≤ l.length := by
  rw [List.isPrefixOf_iff_prefix] at h
  exact h.length_le

theorem isPrefixOf_getElem? {k b : List Nat} {q m : Nat}
    (h : k.isPrefixOf (b.drop q) = true) (hm : m < k.length) : b[q + m]? = k[m]? := by
  rw [List.isPrefixOf_iff_prefix] at h
  obtain ⟨t, ht⟩ := h
  have h1 : (b.drop q)[m]? = (k ++ t)[m]? := by rw [ht]
  rw [List.getElem?_drop, List.getElem?_append_left hm] at h1
  exact h1

theorem strstr_drop_some {body key : List Nat} {p off : Nat}
    (h : strstr (body.drop p) key = some off) :
    key.isPrefixOf (body.drop (p + off)) = true ∧ p + off + key.length ≤ body.length ∨
      key = [] := by
  obtain ⟨h1, _⟩ := strstr_some h
  rw [List.drop_drop] at h1
  have h2 := isPrefixOf_length h1
  rw [List.length_drop] at h2
  by_cases hk : key = []
  · exact Or.inr hk
  · left
    have : 0 < key.length := List.length_pos.2 hk
    exact ⟨h1, by omega⟩

/-- For a non-empty key the loop of `form_get_u8` returns within
`body.length + 1 - p` iterations. -/
theorem form_get_u8_loop_returns (body key : List Nat) (hk : key ≠ []) :
    ∀ fuel p, p ≤ body.length → body.length < p + fuel →
      ∃ r, form_get_u8_loop body key fuel p = some r := by
  intro fuel
  induction fuel with
  | zero => intro p hp hf; omega
  | succ n ih =>
    intro p hp hf
    simp only [form_get_u8_loop]
    cases hs : strstr (body.drop p) key with
    | none => exact ⟨none, rfl⟩
    | some off =>
      simp only
      split
      · exact ⟨_, rfl⟩
      · rcases strstr_drop_some hs with ⟨_, h2⟩ | h2
        · have : 0 < key.length := List.length_pos.2 hk
          exact ih (p + off + key.length) h2 (by omega)
        · exact absurd h2 hk

/-- A result of the loop does not depend on the iterations left over. -/
theorem form_get_u8_loop_mono (body key : List Nat) :
    ∀ fuel p r, form_get_u8_loop body key fuel p = some r →
      ∀ more, form_get_u8_loop body key (fuel + more) p = some r := by
  intro fuel
  induction fuel with
  | zero => intro p r h; simp [form_get_u8_loop] at h
  | succ n ih =>
    intro p r h more
    have hn : n + 1 + more = (n + more) + 1 := by omega
    rw [hn]
    simp only [form_get_u8_loop] at h ⊢
    cases hs : strstr (body.drop p) key with
    | none => rw [hs] at h; exact h
    | some off =>
      rw [hs] at h
      simp only at h ⊢
      split
      · rename_i hc; rw [if_pos hc] at h; exact h
      · rename_i hc; rw [if_neg hc] at h; exact ih _ _ h more

/-- When the key occurs nowhere as a field name, `form_get_u8` returns
`false`. -/
theorem form_get_u8_loop_absent (body key : List Nat) (hk : key ≠ [])
    (habs : ∀ i, ¬ is_field_at body key i) :
    ∀ fuel p, p ≤ body.length → body.length < p + fuel →
      form_get_u8_loop body key fuel p = some none := by
  intro fuel
  induction fuel with
  | zero => intro p hp hf; omega
  | succ n ih =>
    intro p hp hf
    simp only [form_get_u8_loop]
    cases hs : strstr (body.drop p) key with
    | none => rfl
    | some off =>
      simp only
      rcases strstr_drop_some hs with ⟨h1, h2⟩ | h2
      · split
        · rename_i hc
          exact absurd ⟨h1, hc.1, hc.2⟩ (habs (p + off))
        · have : 0 < key.length := List.length_pos.2 hk
          exact ih (p + off + key.length) h2 (by omega)
      · exact absurd h2 hk

/-- When the first occurrence of the key as a field name is at offset `i`,
`form_get_u8` returns `true` with the clamped `atoi` of the (at most five)
characters copied from behind its `=`. -/
theorem form_get_u8_loop_first (body key : List Nat) (hk : key ≠ []) (hamp : 38 ∉ key)
    (i : Nat) (hi : is_field_at body key i) (hfirst : ∀ j, j < i → ¬ is_field_at body key j) :
    ∀ fuel p, p ≤ i → i < p + fuel →
      form_get_u8_loop body key fuel p =
        some (some (clamp_u8 (atoi (copy_num (body.drop (i + key.length + 1)) 5)))) := by
  have hklen : 0 < key.length := List.length_pos.2 hk
  intro fuel
  induction fuel with
  | zero => intro p hp hf; omega
  | succ n ih =>
    intro p hp hf
    simp only [form_get_u8_loop]
    cases hs : strstr (body.drop p) key with
    | none =>
      have h1 := strstr_none hs (i - p)
      rw [List.drop_drop] at h1
      have h2 : p + (i - p) = i := by omega
      rw [h2, hi.1] at h1
      exact absurd h1 (by simp)
    | some off =>
      simp only
      have hoff : p + off ≤ i := by
        by_contra hc
        have h1 := (strstr_some hs).2 (i - p) (by omega)
        rw [List.drop_drop] at h1
        have h2 : p + (i - p) = i := by omega
        rw [h2, hi.1] at h1
        exact absurd h1 (by simp)
      rcases strstr_drop_some hs with ⟨h1, _⟩ | h2
      · by_cases hq : p + off = i
        · rw [hq, if_pos ⟨hi.2.1, hi.2.2⟩]
        · have hlt : p + off < i := by omega
          have hno : ¬ ((p + off = 0 ∨ body[p + off - 1]? = some 38) ∧
              body[p + off + key.length]? = some 61) := by
            intro hc
            exact hfirst (p + off) hlt ⟨h1, hc.1, hc.2⟩
          rw [if_neg hno]
          have hle : p + off + key.length ≤ i := by
            by_contra hc
            have hamp1 : body[i - 1]? = some 38 := by
              rcases hi.2.1 with h0 | h0
              · omega
              · exact h0
            have hm : i - 1 - (p + off) < key.length := by omega
            have h3 := isPrefixOf_getElem? h1 hm
            have h4 : p + off + (i - 1 - (p + off)) = i - 1 := by omega
            rw [h4, hamp1] at h3
            have h5 : key[i - 1 - (p + off)] = 38 := by
              rw [List.getElem?_eq_getElem hm] at h3
              exact (Option.some.inj h3).symm
            exact hamp (h5 ▸ List.getElem_mem hm)
          exact ih (p + off + key.length) hle (by omega)
      · exact absurd h2 hk

/-! ## The number conversion of `form_get_u8` -/

theorem copy_num_digits : ∀ (l : List Nat) (cap : Nat),
    (∀ c ∈ l.takeWhile (· ≠ 38), isdigit c = true) →
      copy_num l cap = (l.takeWhile (· ≠ 38)).take cap := by
  intro l
  induction l with
  | nil => intro cap _; cases cap <;> simp [copy_num]
  | cons c r ih =>
    intro cap h
    cases cap with
    | zero => simp [copy_num]
    | succ n =>
      by_cases hc : c = 38
      · subst hc; simp [copy_num]
      · have h1 : List.takeWhile (· ≠ 38) (c :: r) = c :: List.takeWhile (· ≠ 38) r := by
          simp [List.takeWhile_cons, hc]
        rw [h1] at h ⊢
        have hd : isdigit c = true := h c (List.mem_cons_self _ _)
        have h0 : c ≠ 0 := by
          intro h0; subst h0; simp [isdigit] at hd
        have ih1 := ih n (fun x hx => h x (List.mem_cons_of_mem _ hx))
        simp [copy_num, h0, hc, ih1]

theorem atoi_digits_fold : ∀ (l : List Nat) (acc : Nat), (∀ c ∈ l, isdigit c = true) →
    atoi_digits l acc = l.foldl (fun n c => n * 10 + (c - 48)) acc := by
  intro l
  induction l with
  | nil => intro acc _; rfl
  | cons c r ih =>
    intro acc h
    have hd : isdigit c = true := h c (List.mem_cons_self _ _)
    simp only [atoi_digits, hd, if_true, List.foldl_cons]
    exact ih _ (fun x hx => h x (List.mem_cons_of_mem _ hx))

theorem dropWhile_of_head {l : List Nat} (h : ∀ c, l.head? = some c → isspace c = false) :
    l.dropWhile isspace = l := by
  cases l with
  | nil => rfl
  | cons c r => simp [List.dropWhile_cons, h c rfl]

/-- On a non-empty string of decimal digits `atoi` returns the number the
digits denote. -/
theorem atoi_decimal (l : List Nat) (hne : l ≠ []) (h : ∀ c ∈ l, isdigit c = true) :
    atoi l = ((decimal l : Nat) : Int) := by
  cases l with
  | nil => exact absurd rfl hne
  | cons c r =>
    have hd : isdigit c = true := h c (List.mem_cons_self _ _)
    have hb : 48 ≤ c ∧ c ≤ 57 := by simpa [isdigit] using hd
    have hs : isspace c = false := by
      simp only [isspace, Bool.or_eq_false_iff, decide_eq_false_iff_not, Bool.and_eq_false_imp,
        decide_eq_true_eq]
      omega
    have hdw : (c :: r).dropWhile isspace = c :: r :=
      dropWhile_of_head (fun x hx => by cases hx; exact hs)
    unfold atoi
    rw [hdw]
    split
    · rename_i heq; cases heq; omega
    · rename_i heq; cases heq; omega
    · rw [atoi_digits_fold _ _ h]; rfl

theorem clamp_u8_nat (n : Nat) : clamp_u8 (n : Int) = min n 255 := by
  unfold clamp_u8
  split
  · omega
  · split
    · omega
    · omega

/-! ## `form_get_u8` -/

theorem is_field_at_lt {body key : List Nat} {i : Nat} (h : is_field_at body key i) :
    i + key.length < body.length := by
  have h1 := h.2.2
  rw [List.getElem?_eq_some] at h1
  exact h1.1

/-- C10, evaluated at a value longer than five characters. For the key
`hour` and the body `hour=000300` the first field named `hour` has the
all-digit value `000300`, which denotes 300, so the claim promises
min(300, 255) = 255; the copy loop of main.c:213 stops after five
characters, `atoi` sees `00030` and 30 is stored, against the comments at
main.c:200 and main.c:210 (copy the number up to `&` or the end of the
string). -/
theorem form_get_u8_five_char_cut :
    is_field_at (ascii "hour=000300") (ascii "hour") 0 ∧
    field_value (ascii "hour=000300") (ascii "hour") 0 = ascii "000300" ∧
    (∀ c ∈ ascii "000300", isdigit c = true) ∧
    decimal (ascii "000300") = 300 ∧
    copy_num (ascii "000300") 5 = ascii "00030" ∧
    (∀ fuel, form_get_u8 (fuel + 1) (ascii "hour=000300") (ascii "hour") = some (some 30)) := by
  refine ⟨by decide, by decide, by decide, by decide, by decide, fun fuel => ?_⟩
  have h := form_get_u8_loop_first (ascii "hour=000300") (ascii "hour") (by decide)
    (by decide) 0 (by decide) (fun j hj => absurd hj (Nat.not_lt_zero j)) (fuel + 1) 0
    (Nat.le_refl 0) (by omega)
  rw [form_get_u8, h]
  decide

/-- Where the value has at most five characters the conversion is the one
the comments describe: for a non-empty key without `&` whose first
occurrence as a field name has a non-empty all-digit value of at most five
digits denoting n, `form_get_u8` returns true and stores min(n, 255). -/
theorem form_get_u8_short_value (body key : List Nat) (i : Nat) (hk : key ≠ [])
    (hamp : 38 ∉ key) (hi : is_field_at body key i)
    (hfirst : ∀ j, j < i → ¬ is_field_at body key j)
    (hne : field_value body key i ≠ [])
    (hdig : ∀ c ∈ field_value body key i, isdigit c = true)
    (hshort : (field_value body key i).length ≤ 5)
    (fuel : Nat) (hfuel : body.length < fuel) :
    form_get_u8 fuel body key = some (some (min (decimal (field_value body key i)) 255)) := by
  have hlt := is_field_at_lt hi
  rw [form_get_u8, form_get_u8_loop_first body key hk hamp i hi hfirst fuel 0 (Nat.zero_le i)
    (by omega)]
  rw [copy_num_digits _ 5 hdig]
  have htake : List.take 5 (List.takeWhile (· ≠ 38) (List.drop (i + key.length + 1) body)) =
      field_value body key i := List.take_of_length_le hshort
  rw [htake, atoi_decimal _ hne hdig, clamp_u8_nat]

theorem form_get_u8_short_value_examples :
    form_get_u8 21 (ascii "hour=12&min=34&sec=5") (ascii "min") = some (some 34) ∧
    form_get_u8 9 (ascii "year=300") (ascii "year") = some (some 255) :=
  ⟨form_get_u8_short_value (ascii "hour=12&min=34&sec=5") (ascii "min") 8 (by decide)
      (by decide) (by decide) (by decide) (by decide) (by decide) (by decide) 21 (by decide),
   form_get_u8_short_value (ascii "year=300") (ascii "year") 0 (by decide) (by decide)
      (by decide) (by decide) (by decide) (by decide) (by decide) 9 (by decide)⟩

/-! ## The handler of `POST /api/set_time` -/

theorem time_keys_ne_nil {key : List Nat} (h : key ∈ time_keys) : key ≠ [] ∧ 38 ∉ key := by
  simp only [time_keys, List.mem_cons, List.mem_singleton, List.not_mem_nil, or_false] at h
  rcases h with rfl | rfl | rfl | rfl | rfl | rfl <;> decide

theorem form_get_u8_returns (body key : List Nat) (h : key ∈ time_keys) :
    ∃ r, form_get_u8 (body.length + 1) body key = some r :=
  form_get_u8_loop_returns body key (time_keys_ne_nil h).1 (body.length + 1) 0
    (Nat.zero_le _) (by omega)

/-- Every `form_get_u8` call of the handler returns, so the handler always
produces a response. -/
theorem handle_body_returns {σ : Type} (bus : I2C σ) (s : σ) (buf : List Nat) :
    ∃ rh rmi rs rd rmo ry,
      form_get_u8 ((decoded_body buf).length + 1) (decoded_body buf) (ascii "hour") = some rh ∧
      form_get_u8 ((decoded_body buf).length + 1) (decoded_body buf) (ascii "min") = some rmi ∧
      form_get_u8 ((decoded_body buf).length + 1) (decoded_body buf) (ascii "sec") = some rs ∧
      form_get_u8 ((decoded_body buf).length + 1) (decoded_body buf) (ascii "day") = some rd ∧
      form_get_u8 ((decoded_body buf).length + 1) (decoded_body buf) (ascii "month") = some rmo ∧
      form_get_u8 ((decoded_body buf).length + 1) (decoded_body buf) (ascii "year") = some ry ∧
      handle_body bus s buf =
        some (set_time_response bus s (field_of rh) (field_of rmi) (field_of rs) (field_of rd)
          (field_of rmo) (field_of ry)) := by
  obtain ⟨rh, hh⟩ := form_get_u8_returns (decoded_body buf) (ascii "hour") (by simp [time_keys])
  obtain ⟨rmi, hmi⟩ := form_get_u8_returns (decoded_body buf) (ascii "min") (by simp [time_keys])
  obtain ⟨rs, hs⟩ := form_get_u8_returns (decoded_body buf) (ascii "sec") (by simp [time_keys])
  obtain ⟨rd, hd⟩ := form_get_u8_returns (decoded_body buf) (ascii "day") (by simp [time_keys])
  obtain ⟨rmo, hmo⟩ := form_get_u8_returns (decoded_body buf) (ascii "month") (by simp [time_keys])
  obtain ⟨ry, hy⟩ := form_get_u8_returns (decoded_body buf) (ascii "year") (by simp [time_keys])
  refine ⟨rh, rmi, rs, rd, rmo, ry, hh, hmi, hs, hd, hmo, hy, ?_⟩
  simp only [handle_body, hh, hmi, hs, hd, hmo, hy]

/-- The handler answers every request. -/
theorem api_set_time_handler_returns {σ : Type} (bus : I2C σ) (s : σ) (malloc_ok : Bool)
    (req : httpd_req_t) : ∃ r, api_set_time_handler bus s malloc_ok req = some r := by
  unfold api_set_time_handler
  simp only
  split
  · exact ⟨_, rfl⟩
  · split
    · exact ⟨_, rfl⟩
    · split
      · exact ⟨_, rfl⟩
      · rename_i buf _
        obtain ⟨_, _, _, _, _, _, _, _, _, _, _, _, hb⟩ := handle_body_returns bus s buf
        exact ⟨_, hb⟩

theorem api_set_time_handler_received {σ : Type} (bus : I2C σ) (s : σ) (req : httpd_req_t)
    (buf : List Nat) (hlen : 1 ≤ req.content_len ∧ req.content_len ≤ 1024)
    (hrecv : recv_body req.content_len.toNat req.chunks [] = some buf) :
    api_set_time_handler bus s true req = handle_body bus s buf := by
  have h1 : ¬ (req.content_len ≤ 0 ∨ req.content_len > 1024) := by omega
  simp only [api_set_time_handler, h1, if_false, Bool.not_true, Bool.false_eq_true, hrecv]

/-- A field that `form_get_u8` did not find makes the handler answer 400
with the bus untouched. -/
theorem handle_body_absent {σ : Type} (bus : I2C σ) (s : σ) (buf key : List Nat)
    (hkey : key ∈ time_keys)
    (hr : form_get_u8 ((decoded_body buf).length + 1) (decoded_body buf) key = some none) :
    handle_body bus s buf = some (ESP_FAIL, http_resp.send_err 400 "Invalid time fields", s) := by
  obtain ⟨rh, rmi, rs, rd, rmo, ry, hh, hmi, hs, hd, hmo, hy, hb⟩ := handle_body_returns bus s buf
  rw [hb]
  simp only [time_keys, List.mem_cons, List.mem_singleton, List.not_mem_nil, or_false] at hkey
  rcases hkey with rfl | rfl | rfl | rfl | rfl | rfl
  · rw [hr] at hh; cases hh; simp [set_time_response, field_of]
  · rw [hr] at hmi; cases hmi; simp [set_time_response, field_of]
  · rw [hr] at hs; cases hs; simp [set_time_response, field_of]
  · rw [hr] at hd; cases hd; simp [set_time_response, field_of]
  · rw [hr] at hmo; cases hmo; simp [set_time_response, field_of]
  · rw [hr] at hy; cases hy; simp [set_time_response, field_of]

/-- C5: for every fully received request body of 1 to 1024 bytes whose
URL-decoded text does not contain one of the six keys hour, min, sec,
day, month, year as a field name, `api_set_time_handler` answers with the
400 client error and leaves the bus state as it was, for every driver:
`ds3231_set_time` is not called and no device write is attempted. -/
theorem missing_key_rejected {σ : Type} (bus : I2C σ) (s : σ) (req : httpd_req_t)
    (buf key : List Nat) (hlen : 1 ≤ req.content_len ∧ req.content_len ≤ 1024)
    (hrecv : recv_body req.content_len.toNat req.chunks [] = some buf)
    (hkey : key ∈ time_keys)
    (hmiss : ∀ i, ¬ is_field_at (decoded_body buf) key i) :
    api_set_time_handler bus s true req =
      some (ESP_FAIL, http_resp.send_err 400 "Invalid time fields", s) := by
  rw [api_set_time_handler_received bus s req buf hlen hrecv]
  apply handle_body_absent bus s buf key hkey
  exact form_get_u8_loop_absent (decoded_body buf) key (time_keys_ne_nil hkey).1 hmiss
    ((decoded_body buf).length + 1) 0 (Nat.zero_le _) (by omega)

theorem missing_key_rejected_witness :
    api_set_time_handler (recording chipBus) ([0x58, 0x59, 0x23, 1, 0x31, 0x12, 0x25], []) true
        (post "hour=1&min=0&sec=0&day=1&month=1") =
      some (ESP_FAIL, http_resp.send_err 400 "Invalid time fields",
        ([0x58, 0x59, 0x23, 1, 0x31, 0x12, 0x25], [])) :=
  missing_key_rejected (recording chipBus) _ (post "hour=1&min=0&sec=0&day=1&month=1")
    (ascii "hour=1&min=0&sec=0&day=1&month=1") (ascii "year") (by decide) (by decide)
    (by decide)
    (fun i hi => by
      have hlt := is_field_at_lt hi
      have hall : ∀ j, j < 32 →
          ¬ is_field_at (decoded_body (ascii "hour=1&min=0&sec=0&day=1&month=1"))
            (ascii "year") j := by decide
      have hlen : (decoded_body (ascii "hour=1&min=0&sec=0&day=1&month=1")).length = 32 := by
        decide
      exact hall i (by omega) hi)

/-- End to end on the always-acknowledging chip: the body
`hour=24&min=0&sec=0&day=1&month=1&year=0` gets the 400 answer and the
registers stay as they were; the body
`hour=23&min=59&sec=58&day=31&month=12&year=25` is written and a read
right after it returns 23:59:58 31/12/25. -/
theorem end_to_end_examples :
    api_set_time_handler (recording chipBus) ([0x58, 0x59, 0x23, 1, 0x31, 0x12, 0x25], []) true
        (post "hour=24&min=0&sec=0&day=1&month=1&year=0") =
      some (ESP_FAIL, http_resp.send_err 400 "Invalid time fields",
        ([0x58, 0x59, 0x23, 1, 0x31, 0x12, 0x25], [])) ∧
    api_set_time_handler chipBus [0, 0, 0, 0, 0, 0, 0] true
        (post "hour=23&min=59&sec=58&day=31&month=12&year=25") =
      some (ESP_OK, http_resp.sendstr "Time set successfully!",
        [0x58, 0x59, 0x23, 1, 0x31, 0x12, 0x25]) ∧
    ds3231_get_time chipBus [0x58, 0x59, 0x23, 1, 0x31, 0x12, 0x25] (some ⟨0, 0, 0, 0, 0, 0⟩) =
      (ESP_OK, some ⟨23, 59, 58, 31, 12, 25⟩, [0x58, 0x59, 0x23, 1, 0x31, 0x12, 0x25]) := by
  refine ⟨by decide, by decide, by decide⟩

/-- The five-character cut reaches the device: the body
`hour=000024&min=0&sec=0&day=1&month=1&year=0` names the hour 24, which
the range check of main.c:374 is there to refuse, yet the hour is stored
as 2, the handler answers with the success text and hour 02 is written. -/
theorem long_value_passes_range_check :
    api_set_time_handler (recording chipBus) ([0x58, 0x59, 0x23, 1, 0x31, 0x12, 0x25], []) true
        (post "hour=000024&min=0&sec=0&day=1&month=1&year=0") =
      some (ESP_OK, http_resp.sendstr "Time set successfully!",
        ([0x00, 0x00, 0x02, 1, 0x01, 0x01, 0x00],
          [BusEvent.transmit [0x00, 0x00, 0x00, 0x02, 1, 0x01, 0x01, 0x00]])) := by
  decide

end DS3231
